import Mathlib

set_option autoImplicit false

/-!
Verification of the SOC Report Authoring Tool (src/app.py) against its
natural-language specification.

The program keeps one report document in `st.session_state.form_data`: a nested
Python dict whose leaves are strings and booleans.  We embed that document type
as `Value` below (an association list models a Python dict, preserving
insertion order, as Python dicts do).  The operations embedded from the source:

  * `update_field` / `get_field_value` : dot-path set/get (src/app.py:99-130);
  * `get_default_form_data`            : the default document (src/app.py:62-97);
  * `import_json`                      : wholesale replacement (src/app.py:141-148);
  * `json_dumps` / `json_loads`        : the JSON serializer and parser the app
    calls for export and import (Python's `json` module with `indent=2` and
    `ensure_ascii=True`, the arguments used at src/app.py:221 and 231);
  * `render_template`                  : jinja2 template substitution with the
    default `Undefined` semantics (src/app.py:150-165);
  * `export_file_name`                 : the export artifact names built at
    src/app.py:216 and 222.
-/

namespace SOCReport

/-- A Python value as stored in `form_data` or produced by `json.loads`: a
string, a boolean, a dict, `None`, a number, or a list.  Dicts are
association lists in insertion order, exactly as Python dicts enumerate
their items.  A numeric leaf keeps the lexeme `json.loads` read (Python
parses it into an int or float; no claim depends on numeric semantics, only
on the fact that such documents parse and import).  The app itself only ever
creates strings, booleans and dicts. -/
inductive Value where
  | str : String → Value
  | bool : Bool → Value
  | obj : List (String × Value) → Value
  | null : Value
  | num : String → Value
  | arr : List Value → Value

/-- Dict lookup, `d[k]` read: first (and only, in a real dict) binding wins. -/
def lookupKey : List (String × Value) → String → Option Value
  | [], _ => none
  | (k2, v) :: rest, k => if k2 = k then some v else lookupKey rest k

/-- Dict assignment `d[k] = v`: replace in place if the key is present
(keeping its position, as Python does), otherwise append the new binding. -/
def setKey : List (String × Value) → String → Value → List (String × Value)
  | [], k, v => [(k, v)]
  | (k2, v2) :: rest, k, v => if k2 = k then (k2, v) :: rest else (k2, v2) :: setKey rest k v

/-- The exceptions the path accessor can raise: `KeyError` (a dict misses the
looked-up key) and `TypeError` (indexing or item assignment on a non-dict). -/
inductive PyError where
  | keyError : String → PyError
  | typeError : PyError

/-- Model of Python `str.split('.')` on the character list: splits at every
dot; the result is never empty (`"".split('.') == ['']`). -/
def splitDotChars : List Char → List (List Char)
  | [] => [[]]
  | c :: rest =>
    if c = '.' then [] :: splitDotChars rest
    else match splitDotChars rest with
      | [] => [[c]]
      | g :: gs => (c :: g) :: gs

/-- `field_path.split('.')` from src/app.py:108 and 128. -/
def splitDot (s : String) : List String :=
  (splitDotChars s.data).map (fun l => String.mk l)

/-- The walk of `get_field_value` (src/app.py:127-130): `data = data[part]`
for every part.  A dict missing the part raises `KeyError`; indexing a string
or boolean with a string part raises `TypeError`. -/
def getPath : Value → List String → Except PyError Value
  | v, [] => .ok v
  | .obj kvs, p :: rest =>
    match lookupKey kvs p with
    | some v => getPath v rest
    | none => .error (.keyError p)
  | .str _, _ :: _ => .error .typeError
  | .bool _, _ :: _ => .error .typeError
  | .null, _ :: _ => .error .typeError
  | .num _, _ :: _ => .error .typeError
  | .arr _, _ :: _ => .error .typeError

/-- The walk and final assignment of `update_field` (src/app.py:107-115):
walk `parts[:-1]` exactly as the getter does, then `data[parts[-1]] = value`.
The final assignment inserts the key when absent (Python dict assignment
never raises `KeyError`); assigning into a string or boolean raises
`TypeError`.  The empty parts list cannot arise from `split('.')`. -/
def setPath : Value → List String → Value → Except PyError Value
  | _, [], _ => .error .typeError
  | .obj kvs, [p], nv => .ok (.obj (setKey kvs p nv))
  | .obj kvs, p :: q :: rest, nv =>
    match lookupKey kvs p with
    | some sub =>
      match setPath sub (q :: rest) nv with
      | .ok sub2 => .ok (.obj (setKey kvs p sub2))
      | .error e => .error e
    | none => .error (.keyError p)
  | .str _, _ :: _, _ => .error .typeError
  | .bool _, _ :: _, _ => .error .typeError
  | .null, _ :: _, _ => .error .typeError
  | .num _, _ :: _, _ => .error .typeError
  | .arr _, _ :: _, _ => .error .typeError

/-- Replace the subtree reached along `parts` by a new value.  This is the
functional reading of the in-place mutation `update_field` performs: the
result of a successful `setPath` along a walkable spine. -/
def rebuild : Value → List String → Value → Value
  | _, [], nv => nv
  | .obj kvs, p :: rest, nv =>
    match lookupKey kvs p with
    | some sub => .obj (setKey kvs p (rebuild sub rest nv))
    | none => .obj kvs
  | v, _ :: _, _ => v

/-- `SOCReportAuthoringTool.get_field_value` (src/app.py:117-130). -/
def get_field_value (form_data : Value) (field_path : String) : Except PyError Value :=
  getPath form_data (splitDot field_path)

/-- `SOCReportAuthoringTool.update_field` (src/app.py:99-115).  Returns the
updated document, or the exception the Python code would raise (in which case
`form_data` is untouched: the walk precedes the single assignment). -/
def update_field (form_data : Value) (field_path : String) (value : Value) :
    Except PyError Value :=
  setPath form_data (splitDot field_path) value

/-- `SOCReportAuthoringTool.import_json` (src/app.py:141-148): wholesale
replacement of the session document, no validation of any kind. -/
def import_json (_form_data : Value) (json_data : Value) : Value := json_data

/-- The default attack entry of `get_default_form_data` (src/app.py:74-91). -/
def defaultAttack : List (String × Value) :=
  [("title", .str ""), ("image", .str ""), ("description", .str ""), ("mitigated", .bool false)]

/-- The bindings of the default document (src/app.py:69-97), in source order. -/
def defaultFields : List (String × Value) :=
  [("report_date", .str ""), ("threat_level", .str "Guarded"),
   ("generalSituation", .str ""), ("hunting_text", .str ""),
   ("attack1", .obj defaultAttack), ("attack2", .obj defaultAttack), ("attack3", .obj defaultAttack),
   ("takeaway", .obj [("quote", .str ""), ("author", .str ""), ("picture", .str "")])]

/-- `SOCReportAuthoringTool.get_default_form_data` (src/app.py:62-97). -/
def get_default_form_data : Value := .obj defaultFields

/-- The nineteen dot-paths the input widgets of `run` bind
(src/app.py:249-345): every field of the Report schema of spec section 3. -/
def validPaths : List String :=
  ["report_date", "threat_level", "generalSituation", "hunting_text",
   "attack1.title", "attack1.image", "attack1.description", "attack1.mitigated",
   "attack2.title", "attack2.image", "attack2.description", "attack2.mitigated",
   "attack3.title", "attack3.image", "attack3.description", "attack3.mitigated",
   "takeaway.quote", "takeaway.author", "takeaway.picture"]

/-- Did the computation succeed (no exception raised)? -/
def exOk {ε α : Type} : Except ε α → Bool
  | .ok _ => true
  | .error _ => false

theorem lookupKey_setKey_self (l : List (String × Value)) (k : String) (v : Value) :
    lookupKey (setKey l k v) k = some v := by
  induction l with
  | nil => simp [setKey, lookupKey]
  | cons kv rest ih =>
    obtain ⟨k2, v2⟩ := kv
    by_cases h : k2 = k
    · simp [setKey, lookupKey, h]
    · simp [setKey, lookupKey, h, ih]

theorem lookupKey_setKey_ne (l : List (String × Value)) (k k2 : String) (v : Value)
    (h : k2 ≠ k) : lookupKey (setKey l k v) k2 = lookupKey l k2 := by
  have hkk : ¬ k = k2 := fun hh => h hh.symm
  induction l with
  | nil => simp [setKey, lookupKey, hkk]
  | cons kv rest ih =>
    obtain ⟨k3, v3⟩ := kv
    by_cases h3 : k3 = k
    · subst h3
      simp [setKey, lookupKey, hkk]
    · simp [setKey, lookupKey, h3, ih]

theorem setKey_of_lookup_none (l : List (String × Value)) (k : String) (v : Value)
    (h : lookupKey l k = none) : setKey l k v = l ++ [(k, v)] := by
  induction l with
  | nil => simp [setKey]
  | cons kv rest ih =>
    obtain ⟨k2, v2⟩ := kv
    by_cases h2 : k2 = k
    · simp [lookupKey, h2] at h
    · simp [lookupKey, h2] at h
      simp [setKey, h2, ih h]

theorem lookupKey_append (l1 l2 : List (String × Value)) (k : String) :
    lookupKey (l1 ++ l2) k =
      match lookupKey l1 k with
      | some v => some v
      | none => lookupKey l2 k := by
  induction l1 with
  | nil => simp [lookupKey]
  | cons kv rest ih =>
    obtain ⟨k2, v2⟩ := kv
    by_cases h : k2 = k <;> simp [lookupKey, h, ih]

theorem splitDotChars_ne_nil (l : List Char) : splitDotChars l ≠ [] := by
  induction l with
  | nil => simp [splitDotChars]
  | cons c r ih =>
    simp only [splitDotChars]
    split
    · simp
    · split
      · simp
      · simp

theorem splitDot_ne_nil (s : String) : splitDot s ≠ [] := by
  simp [splitDot, splitDotChars_ne_nil]

theorem getPath_append (pre : List String) (s m : Value) (rest : List String)
    (h : getPath s pre = .ok m) : getPath s (pre ++ rest) = getPath m rest := by
  induction pre generalizing s with
  | nil =>
    simp [getPath] at h
    subst h
    simp
  | cons p pre ih =>
    cases s with
    | str s0 => simp [getPath] at h
    | bool b => simp [getPath] at h
    | null => simp [getPath] at h
    | num n0 => simp [getPath] at h
    | arr a0 => simp [getPath] at h
    | obj kvs =>
      simp only [getPath] at h
      cases hl : lookupKey kvs p with
      | none => rw [hl] at h; simp at h
      | some sub =>
        rw [hl] at h
        simpa [getPath, hl] using ih sub h

theorem setPath_append (pre : List String) (s m : Value) (rest : List String) (v : Value)
    (h : getPath s pre = .ok m) (hne : rest ≠ []) :
    setPath s (pre ++ rest) v = Except.map (rebuild s pre) (setPath m rest v) := by
  induction pre generalizing s with
  | nil =>
    simp only [getPath, Except.ok.injEq] at h
    rw [List.nil_append, h]
    cases hsp : setPath m rest v <;> simp [Except.map, rebuild, hsp]
  | cons p pre ih =>
    cases s with
    | str s0 => simp [getPath] at h
    | bool b => simp [getPath] at h
    | null => simp [getPath] at h
    | num n0 => simp [getPath] at h
    | arr a0 => simp [getPath] at h
    | obj kvs =>
      simp only [getPath] at h
      cases hl : lookupKey kvs p with
      | none => rw [hl] at h; simp at h
      | some sub =>
        rw [hl] at h
        have hsub := ih sub h
        have hform : ∃ q tail, pre ++ rest = q :: tail := by
          cases hpr : pre ++ rest with
          | nil =>
            rcases List.append_eq_nil.mp hpr with ⟨h1, h2⟩
            exact absurd h2 hne
          | cons q tail => exact ⟨q, tail, rfl⟩
        obtain ⟨q, tail, hq⟩ := hform
        rw [List.cons_append, hq]
        simp only [setPath, hl]
        rw [← hq, hsub]
        simp only [rebuild, hl]
        cases setPath m rest v <;> simp [Except.map]

theorem setPath_ok_of_getPath_ok (parts : List String) (s : Value) (v : Value)
    (hne : parts ≠ []) (h : exOk (getPath s parts) = true) :
    ∃ s2, setPath s parts v = .ok s2 := by
  induction parts generalizing s with
  | nil => exact absurd rfl hne
  | cons p rest ih =>
    cases s with
    | str s0 => simp [getPath, exOk] at h
    | bool b => simp [getPath, exOk] at h
    | null => simp [getPath, exOk] at h
    | num n0 => simp [getPath, exOk] at h
    | arr a0 => simp [getPath, exOk] at h
    | obj kvs =>
      simp only [getPath] at h
      cases hl : lookupKey kvs p with
      | none => rw [hl] at h; simp [exOk] at h
      | some sub =>
        rw [hl] at h
        cases rest with
        | nil => exact ⟨.obj (setKey kvs p v), rfl⟩
        | cons q tail =>
          obtain ⟨sub2, hsub2⟩ := ih sub (by simp) h
          exact ⟨.obj (setKey kvs p sub2), by simp [setPath, hl, hsub2]⟩

theorem getPath_setPath (parts : List String) (s v s2 : Value)
    (h : setPath s parts v = .ok s2) : getPath s2 parts = .ok v := by
  induction parts generalizing s s2 with
  | nil => simp [setPath] at h
  | cons p rest ih =>
    cases s with
    | str s0 => cases rest <;> simp [setPath] at h
    | bool b => cases rest <;> simp [setPath] at h
    | null => cases rest <;> simp [setPath] at h
    | num n0 => cases rest <;> simp [setPath] at h
    | arr a0 => cases rest <;> simp [setPath] at h
    | obj kvs =>
      cases rest with
      | nil =>
        simp only [setPath, Except.ok.injEq] at h
        subst h
        simp [getPath, lookupKey_setKey_self]
      | cons q tail =>
        cases hl : lookupKey kvs p with
        | none => simp [setPath, hl] at h
        | some sub =>
          cases hs : setPath sub (q :: tail) v with
          | error e => simp [setPath, hl, hs] at h
          | ok sub2 =>
            simp only [setPath, hl, hs, Except.ok.injEq] at h
            subst h
            simp [getPath, lookupKey_setKey_self, ih sub sub2 hs]

/-- Two segment paths diverge when, after a common run of equal segments, both
still have a next segment and those segments differ.  Distinct widget paths of
the Report schema always diverge (no valid path prefixes another). -/
def diverge : List String → List String → Bool
  | a :: p, b :: q => if a = b then diverge p q else true
  | _, _ => false

theorem diverge_cons_same (a : String) (p q : List String) :
    diverge (a :: p) (a :: q) = diverge p q := by
  simp [diverge]

theorem getPath_frame (p q : List String) (s v s2 : Value)
    (hd : diverge p q = true) (hset : setPath s p v = .ok s2) :
    getPath s2 q = getPath s q := by
  induction p generalizing q s s2 with
  | nil => simp [diverge] at hd
  | cons a p ih =>
    cases q with
    | nil => simp [diverge] at hd
    | cons b q =>
      cases s with
      | str s0 => cases p <;> simp [setPath] at hset
      | bool b0 => cases p <;> simp [setPath] at hset
      | null => cases p <;> simp [setPath] at hset
      | num n0 => cases p <;> simp [setPath] at hset
      | arr a0 => cases p <;> simp [setPath] at hset
      | obj kvs =>
        by_cases hab : a = b
        · subst hab
          rw [diverge_cons_same] at hd
          cases p with
          | nil => simp [diverge] at hd
          | cons a2 p2 =>
            cases hl : lookupKey kvs a with
            | none => simp [setPath, hl] at hset
            | some sub =>
              cases hs : setPath sub (a2 :: p2) v with
              | error e => simp [setPath, hl, hs] at hset
              | ok sub2 =>
                simp only [setPath, hl, hs, Except.ok.injEq] at hset
                subst hset
                simp [getPath, lookupKey_setKey_self, hl, ih _ _ _ hd hs]
        · have hba : b ≠ a := fun hh => hab hh.symm
          cases p with
          | nil =>
            simp only [setPath, Except.ok.injEq] at hset
            subst hset
            simp [getPath, lookupKey_setKey_ne _ _ _ _ hba]
          | cons a2 p2 =>
            cases hl : lookupKey kvs a with
            | none => simp [setPath, hl] at hset
            | some sub =>
              cases hs : setPath sub (a2 :: p2) v with
              | error e => simp [setPath, hl, hs] at hset
              | ok sub2 =>
                simp only [setPath, hl, hs, Except.ok.injEq] at hset
                subst hset
                simp [getPath, lookupKey_setKey_ne _ _ _ _ hba]

theorem validPaths_pairwise_diverge :
    ∀ p ∈ validPaths, ∀ q ∈ validPaths, p ≠ q → diverge (splitDot p) (splitDot q) = true := by
  decide

/-- C1: for every valid dot-notation path of the Report schema and every value
`v`, a successful `update_field path v` followed by `get_field_value path` on
the same session state returns `v`.  The second hypothesis says the path is
present in the current state (true of every state conforming to the Report
schema, in particular the default state), which also makes the set succeed. -/
theorem c1_set_then_get (s : Value) (path : String) (v : Value)
    (hpath : path ∈ validPaths) (hok : exOk (get_field_value s path) = true) :
    ∃ s2, update_field s path v = .ok s2 ∧ get_field_value s2 path = .ok v := by
  obtain ⟨s2, hs2⟩ := setPath_ok_of_getPath_ok (splitDot path) s v (splitDot_ne_nil path) hok
  exact ⟨s2, hs2, getPath_setPath _ _ _ _ hs2⟩

theorem c1_set_then_get_witness :
    "attack1.title" ∈ validPaths ∧
    exOk (get_field_value get_default_form_data "attack1.title") = true ∧
    ∃ s2, update_field get_default_form_data "attack1.title" (Value.str "t") = .ok s2 ∧
      get_field_value s2 "attack1.title" = .ok (Value.str "t") :=
  ⟨by decide, rfl, c1_set_then_get get_default_form_data "attack1.title" (Value.str "t") (by decide) rfl⟩

/-- C2 counterexample: the claim says `set` on a path with an absent segment
fails with KeyNotFound and leaves the Report unmodified.  But when only the
last segment is absent, `update_field` performs a plain dict assignment, which
inserts the new key: on the default Report, `set("extra", "x")` succeeds and
extends the document (and afterwards `get("extra")` returns "x", while on the
unmodified default it raises KeyError). -/
theorem c2_counterexample :
    update_field get_default_form_data "extra" (Value.str "x")
      = .ok (.obj (defaultFields ++ [("extra", Value.str "x")])) ∧
    get_field_value (.obj (defaultFields ++ [("extra", Value.str "x")])) "extra"
      = .ok (Value.str "x") ∧
    get_field_value get_default_form_data "extra" = .error (.keyError "extra") :=
  ⟨rfl, rfl, rfl⟩

/-- C2 amended: if the walk reaches a nested mapping `kvs` after the segments
`pre` and the next segment `p` is absent from it, then (1) `get` of any path
continuing through `p` fails with KeyNotFound (and, being a read, modifies
nothing); (2) `set` fails with KeyNotFound — leaving the Report unmodified,
since the failed walk precedes the single assignment — whenever `p` is not the
last segment; but (3) when `p` is the last segment, `set` succeeds and inserts
the key into that mapping. -/
theorem c2_missing_segment_amended (s : Value) (pre : List String)
    (kvs : List (String × Value)) (p : String)
    (hwalk : getPath s pre = .ok (.obj kvs)) (hmiss : lookupKey kvs p = none) :
    (∀ suf, getPath s (pre ++ p :: suf) = .error (.keyError p)) ∧
    (∀ q suf v, setPath s (pre ++ p :: q :: suf) v = .error (.keyError p)) ∧
    (∀ v, setPath s (pre ++ [p]) v = .ok (rebuild s pre (.obj (setKey kvs p v)))) := by
  refine ⟨?_, ?_, ?_⟩
  · intro suf
    rw [getPath_append pre s _ _ hwalk]
    simp [getPath, hmiss]
  · intro q suf v
    rw [setPath_append pre s _ _ v hwalk (by simp)]
    simp [setPath, hmiss, Except.map]
  · intro v
    rw [setPath_append pre s _ _ v hwalk (by simp)]
    simp [setPath, Except.map]

theorem c2_missing_segment_amended_witness :
    getPath get_default_form_data (["attack1"] ++ "newkey" :: []) = .error (.keyError "newkey") ∧
    setPath get_default_form_data (["attack1"] ++ "newkey" :: "deeper" :: []) (Value.str "y")
      = .error (.keyError "newkey") ∧
    setPath get_default_form_data (["attack1"] ++ ["newkey"]) (Value.str "y")
      = .ok (rebuild get_default_form_data ["attack1"]
          (.obj (setKey defaultAttack "newkey" (Value.str "y")))) := by
  have h := c2_missing_segment_amended get_default_form_data ["attack1"] defaultAttack "newkey" rfl rfl
  exact ⟨h.1 [], h.2.1 "deeper" [] (Value.str "y"), h.2.2 (Value.str "y")⟩

/-- C10: a successful `update_field` on a valid path changes only the leaf
that path addresses: reading any other valid path yields exactly what it
yielded before the update. -/
theorem c10_set_frame (p q : String) (hp : p ∈ validPaths) (hq : q ∈ validPaths)
    (hne : p ≠ q) (s v s2 : Value) (hset : update_field s p v = .ok s2) :
    get_field_value s2 q = get_field_value s q :=
  getPath_frame _ _ _ _ _ (validPaths_pairwise_diverge p hp q hq hne) hset

theorem c10_set_frame_witness :
    get_field_value
      (Value.obj (setKey defaultFields "attack1"
        (Value.obj (setKey defaultAttack "title" (Value.str "x"))))) "attack1.image"
      = get_field_value get_default_form_data "attack1.image" :=
  c10_set_frame "attack1.title" "attack1.image" (by decide) (by decide) (by decide)
    get_default_form_data (Value.str "x") _ rfl

/-- The selectbox options for the threat level (src/app.py:256-262). -/
def threatLevelNames : List String := ["Guarded", "Elevated", "High", "Severe"]

/-- One user action on the session state: a widget edit routed through
`update_field` (src/app.py:249-345), or a JSON import routed through
`import_json` (src/app.py:228-236). -/
inductive SessionOp where
  | edit : String → Value → SessionOp
  | importJ : Value → SessionOp

/-- The input-binding boundary of `run`: every widget is bound to one valid
path, and the threat-level selectbox only ever submits one of its four fixed
options.  A JSON import is not a boundary edit. -/
def isBoundaryEdit : SessionOp → Bool
  | .edit path v =>
    decide (path ∈ validPaths) &&
      (if path = "threat_level" then
        match v with
        | .str t => threatLevelNames.contains t
        | _ => false
      else true)
  | .importJ _ => false

/-- Apply one action to the session state.  A failing `update_field` raises in
Python before any assignment happens, leaving `form_data` unchanged, which is
what the error branch models. -/
def applyOp (s : Value) : SessionOp → Value
  | .edit path v =>
    match update_field s path v with
    | .ok s2 => s2
    | .error _ => s
  | .importJ d => import_json s d

/-- A session: the default document at start (src/app.py:59-60), then the
user's actions in order. -/
def runSession (ops : List SessionOp) : Value :=
  ops.foldl applyOp get_default_form_data

/-- Does the document currently hold one of the four threat levels? -/
def threatLevelOk (s : Value) : Bool :=
  match get_field_value s "threat_level" with
  | .ok (.str t) => threatLevelNames.contains t
  | _ => false

theorem threatLevelOk_iff (s : Value) :
    threatLevelOk s = true ↔
      ∃ kvs t, s = .obj kvs ∧ lookupKey kvs "threat_level" = some (.str t) ∧
        threatLevelNames.contains t = true := by
  constructor
  · intro h
    unfold threatLevelOk get_field_value at h
    rw [show splitDot "threat_level" = ["threat_level"] from rfl] at h
    cases s with
    | str s0 => simp [getPath] at h
    | bool b => simp [getPath] at h
    | null => simp [getPath] at h
    | num n0 => simp [getPath] at h
    | arr a0 => simp [getPath] at h
    | obj kvs =>
      cases hl : lookupKey kvs "threat_level" with
      | none => simp [getPath, hl] at h
      | some v0 =>
        cases v0 with
        | str t => exact ⟨kvs, t, rfl, hl, by simpa [getPath, hl] using h⟩
        | bool b => simp [getPath, hl] at h
        | obj l => simp [getPath, hl] at h
        | null => simp [getPath, hl] at h
        | num n0 => simp [getPath, hl] at h
        | arr a0 => simp [getPath, hl] at h
  · rintro ⟨kvs, t, rfl, hl, ht⟩
    unfold threatLevelOk get_field_value
    rw [show splitDot "threat_level" = ["threat_level"] from rfl]
    simpa [getPath, hl] using ht

theorem threatLevelOk_applyOp (s : Value) (op : SessionOp)
    (hok : threatLevelOk s = true) (hb : isBoundaryEdit op = true) :
    threatLevelOk (applyOp s op) = true := by
  cases op with
  | importJ d => simp [isBoundaryEdit] at hb
  | edit path v =>
    simp only [isBoundaryEdit, Bool.and_eq_true, decide_eq_true_eq] at hb
    obtain ⟨hmem, hcond⟩ := hb
    by_cases hpath : path = "threat_level"
    · subst hpath
      cases v with
      | bool b => rw [if_pos rfl] at hcond; exact absurd hcond (by simp)
      | obj l => rw [if_pos rfl] at hcond; exact absurd hcond (by simp)
      | null => rw [if_pos rfl] at hcond; exact absurd hcond (by simp)
      | num n0 => rw [if_pos rfl] at hcond; exact absurd hcond (by simp)
      | arr a0 => rw [if_pos rfl] at hcond; exact absurd hcond (by simp)
      | str t =>
        rw [if_pos rfl] at hcond
        obtain ⟨kvs, t0, rfl, hl, _⟩ := (threatLevelOk_iff s).mp hok
        have hset : update_field (.obj kvs) "threat_level" (.str t)
            = .ok (.obj (setKey kvs "threat_level" (.str t))) := by
          unfold update_field
          rw [show splitDot "threat_level" = ["threat_level"] from rfl]
          simp [setPath]
        simp only [applyOp, hset]
        exact (threatLevelOk_iff _).mpr
          ⟨_, t, rfl, lookupKey_setKey_self kvs "threat_level" (.str t), hcond⟩
    · cases hup : update_field s path v with
      | error e => simpa [applyOp, hup] using hok
      | ok s2 =>
        have hframe : get_field_value s2 "threat_level" = get_field_value s "threat_level" :=
          getPath_frame _ _ _ _ _
            (validPaths_pairwise_diverge path hmem "threat_level" (by decide) hpath) hup
        simp only [applyOp, hup]
        unfold threatLevelOk at hok ⊢
        rw [hframe]
        exact hok

theorem threatLevelOk_foldl (ops : List SessionOp) :
    (∀ op ∈ ops, isBoundaryEdit op = true) →
    ∀ s, threatLevelOk s = true → threatLevelOk (ops.foldl applyOp s) = true := by
  induction ops with
  | nil => intro _ s hs; simpa using hs
  | cons op ops ih =>
    intro hb s hs
    simp only [List.foldl_cons]
    exact ih (fun o ho => hb o (List.mem_cons_of_mem _ ho)) _
      (threatLevelOk_applyOp s op hs (hb op (List.mem_cons_self _ _)))

/-- C4 counterexample: the claim promises the threat-level invariant across
any sequence of operations including JSON import.  But `import_json` performs
no validation: importing a parsed document whose `threat_level` is "Critical"
puts "Critical" — outside the four enumerated values — into the Report. -/
theorem c4_counterexample :
    get_field_value
      (runSession [SessionOp.importJ (Value.obj [("threat_level", Value.str "Critical")])])
      "threat_level" = .ok (Value.str "Critical") ∧
    threatLevelNames.contains "Critical" = false ∧
    threatLevelOk
      (runSession [SessionOp.importJ (Value.obj [("threat_level", Value.str "Critical")])])
      = false :=
  ⟨rfl, rfl, rfl⟩

/-- C4 amended: after initialization and any sequence of field edits routed
through the input-binding boundary (no JSON import), the Report's
`threat_level` is one of Guarded, Elevated, High, Severe: the boundary rejects
any other value because the selectbox only submits its four fixed options.
JSON import is exempt: it replaces the document without validation. -/
theorem c4_threat_level_amended (ops : List SessionOp)
    (hb : ∀ op ∈ ops, isBoundaryEdit op = true) :
    threatLevelOk (runSession ops) = true :=
  threatLevelOk_foldl ops hb get_default_form_data rfl

theorem c4_threat_level_amended_witness :
    (∀ op ∈ [SessionOp.edit "threat_level" (Value.str "Elevated"),
             SessionOp.edit "attack2.title" (Value.str "phishing")],
      isBoundaryEdit op = true) ∧
    threatLevelOk (runSession
      [SessionOp.edit "threat_level" (Value.str "Elevated"),
       SessionOp.edit "attack2.title" (Value.str "phishing")]) = true :=
  ⟨by decide, c4_threat_level_amended
    [SessionOp.edit "threat_level" (Value.str "Elevated"),
     SessionOp.edit "attack2.title" (Value.str "phishing")] (by decide)⟩

/-- The schema's string-typed leaves other than `threat_level`. -/
def stringFieldPaths : List String :=
  ["report_date", "generalSituation", "hunting_text",
   "attack1.title", "attack1.image", "attack1.description",
   "attack2.title", "attack2.image", "attack2.description",
   "attack3.title", "attack3.image", "attack3.description",
   "takeaway.quote", "takeaway.author", "takeaway.picture"]

/-- The schema's boolean leaves. -/
def mitigatedPaths : List String :=
  ["attack1.mitigated", "attack2.mitigated", "attack3.mitigated"]

/-- The keys of the top-level document mapping, in order. -/
def topKeys : Value → List String
  | .obj kvs => kvs.map Prod.fst
  | _ => []

/-- C7: the default Report has exactly the eight top-level entries of the
schema (so exactly the three attack entries attack1, attack2, attack3),
`threat_level` is "Guarded", every other string field is the empty string, and
every `mitigated` flag is false — each attack entry being exactly the
title/image/description/mitigated record with empty/false values. -/
theorem c7_default_report :
    topKeys get_default_form_data =
      ["report_date", "threat_level", "generalSituation", "hunting_text",
       "attack1", "attack2", "attack3", "takeaway"] ∧
    get_field_value get_default_form_data "threat_level" = .ok (Value.str "Guarded") ∧
    (stringFieldPaths.all (fun p =>
      match get_field_value get_default_form_data p with
      | .ok (.str t) => t == ""
      | _ => false)) = true ∧
    (mitigatedPaths.all (fun p =>
      match get_field_value get_default_form_data p with
      | .ok (.bool b) => b == false
      | _ => false)) = true ∧
    get_field_value get_default_form_data "attack1" = .ok (Value.obj defaultAttack) ∧
    get_field_value get_default_form_data "attack2" = .ok (Value.obj defaultAttack) ∧
    get_field_value get_default_form_data "attack3" = .ok (Value.obj defaultAttack) :=
  ⟨rfl, rfl, rfl, rfl, rfl, rfl, rfl⟩

/-- Python `str.replace(' ', '_')`: every space character becomes an
underscore (src/app.py:216 and 222). -/
def underscoreSpaces (s : String) : String :=
  String.mk (s.data.map (fun c => if c = Char.ofNat 32 then '_' else c))

/-- The export artifact name the app builds:
`f"SOC_Report_{form_data['report_date'].replace(' ', '_')}"` plus the
extension (src/app.py:216 and 222).  `none` models the exception Python would
raise when `report_date` is missing or not a string. -/
def export_file_name (form_data : Value) (ext : String) : Option String :=
  match form_data with
  | .obj kvs =>
    match lookupKey kvs "report_date" with
    | some (.str d) => some ("SOC_Report_" ++ underscoreSpaces d ++ ext)
    | _ => none
  | _ => none

/-- C8: for every Report whose `report_date` field holds a string `d`, the PDF
and JSON export artifacts are named by prefixing "SOC_Report_" to `d` with
every space replaced by an underscore, followed by ".pdf" respectively
".json". -/
theorem c8_export_filenames (kvs : List (String × Value)) (d : String)
    (h : lookupKey kvs "report_date" = some (.str d)) :
    export_file_name (.obj kvs) ".pdf"
      = some ("SOC_Report_" ++
          String.mk (d.data.map (fun c => if c = Char.ofNat 32 then '_' else c)) ++ ".pdf") ∧
    export_file_name (.obj kvs) ".json"
      = some ("SOC_Report_" ++
          String.mk (d.data.map (fun c => if c = Char.ofNat 32 then '_' else c)) ++ ".json") := by
  simp [export_file_name, h, underscoreSpaces]

theorem c8_export_filenames_witness :
    export_file_name (.obj [("report_date", Value.str "May 2024")]) ".pdf"
      = some "SOC_Report_May_2024.pdf" ∧
    export_file_name (.obj [("report_date", Value.str "May 2024")]) ".json"
      = some "SOC_Report_May_2024.json" := by
  have h := c8_export_filenames [("report_date", Value.str "May 2024")] "May 2024" rfl
  exact ⟨h.1.trans (by rfl), h.2.trans (by rfl)⟩

/-- The double-quote character. -/
def qt : Char := Char.ofNat 34

/-- The backslash character. -/
def bsl : Char := Char.ofNat 92

/-- The opening curly bracket. -/
def lbrace : Char := Char.ofNat 123

/-- The closing curly bracket. -/
def rbrace : Char := Char.ofNat 125

/-- The newline character. -/
def nlChar : Char := Char.ofNat 10

/-- The carriage-return character. -/
def crChar : Char := Char.ofNat 13

/-- The horizontal-tab character. -/
def tabChar : Char := Char.ofNat 9

/-- The backspace character. -/
def bspChar : Char := Char.ofNat 8

/-- The form-feed character. -/
def ffChar : Char := Char.ofNat 12

/-- The space character. -/
def spChar : Char := Char.ofNat 32

/-- Lowercase hexadecimal digit, as Python's `\uXXXX` escapes print them. -/
def hexDig (n : Nat) : Char :=
  if n < 10 then Char.ofNat (48 + n) else Char.ofNat (87 + n)

/-- The numeric value of a hexadecimal digit character, if it is one. -/
def fromHex (c : Char) : Option Nat :=
  if 48 ≤ c.toNat ∧ c.toNat ≤ 57 then some (c.toNat - 48)
  else if 97 ≤ c.toNat ∧ c.toNat ≤ 102 then some (c.toNat - 87)
  else if 65 ≤ c.toNat ∧ c.toNat ≤ 70 then some (c.toNat - 55)
  else none

/-- Four hexadecimal digits of a number below 65536. -/
def hex4 (n : Nat) : List Char :=
  [hexDig (n / 4096 % 16), hexDig (n / 256 % 16), hexDig (n / 16 % 16), hexDig (n % 16)]

/-- How Python's `json.dumps` with `ensure_ascii=True` (the default the app
uses) writes one character of a string: the named two-character escapes, then
printable ASCII verbatim, then `\uXXXX` — using a surrogate pair for
characters beyond the basic multilingual plane. -/
def escChar (c : Char) : List Char :=
  if c = qt then [bsl, qt]
  else if c = bsl then [bsl, bsl]
  else if c = nlChar then [bsl, 'n']
  else if c = crChar then [bsl, 'r']
  else if c = tabChar then [bsl, 't']
  else if c = bspChar then [bsl, 'b']
  else if c = ffChar then [bsl, 'f']
  else if 32 ≤ c.toNat ∧ c.toNat ≤ 126 then [c]
  else if c.toNat < 65536 then bsl :: 'u' :: hex4 c.toNat
  else bsl :: 'u' :: hex4 (55296 + (c.toNat - 65536) / 1024)
    ++ bsl :: 'u' :: hex4 (56320 + (c.toNat - 65536) % 1024)

/-- Escape a whole character sequence. -/
def escChars : List Char → List Char
  | [] => []
  | c :: rest => escChar c ++ escChars rest

/-- A JSON string literal: quote, escaped characters, quote. -/
def encStr (s : String) : List Char :=
  qt :: (escChars s.data ++ [qt])

/-- The indentation `json.dumps(..., indent=2)` emits. -/
def spaces (n : Nat) : List Char := List.replicate n spChar

mutual

/-- `json.dumps(v, indent=2)` on the document values the app exports, at
nesting depth `d`: strings and booleans inline; an empty dict prints as the
two braces; a non-empty dict opens a brace, prints one member per line
indented two more spaces with `": "` after the key and `,` between members,
then closes the brace at the current indent. -/
def serValue : Value → Nat → List Char
  | .str s, _ => encStr s
  | .bool true, _ => ['t', 'r', 'u', 'e']
  | .bool false, _ => ['f', 'a', 'l', 's', 'e']
  | .obj [], _ => [lbrace, rbrace]
  | .obj (m :: ms), d =>
    lbrace :: nlChar :: (serMembers (m :: ms) (d + 1) ++ nlChar :: (spaces (2 * d) ++ [rbrace]))
  | .null, _ => ['n', 'u', 'l', 'l']
  | .num s, _ => s.data
  | .arr [], _ => ['[', ']']
  | .arr (e :: es), d =>
    '[' :: nlChar :: (serElems (e :: es) (d + 1) ++ nlChar :: (spaces (2 * d) ++ [']']))

/-- The member lines of a non-empty dict at indent depth `d`. -/
def serMembers : List (String × Value) → Nat → List Char
  | [], _ => []
  | [(k, v)], d => spaces (2 * d) ++ (encStr k ++ ':' :: spChar :: serValue v d)
  | (k, v) :: m2 :: ms, d =>
    spaces (2 * d) ++ (encStr k ++ ':' :: spChar :: serValue v d)
      ++ ',' :: nlChar :: serMembers (m2 :: ms) d

/-- The element lines of a non-empty list, as `json.dumps(..., indent=2)`
prints them.  Never exercised by a theorem: the exported documents contain no
lists. -/
def serElems : List Value → Nat → List Char
  | [], _ => []
  | [e], d => spaces (2 * d) ++ serValue e d
  | e :: e2 :: es, d =>
    spaces (2 * d) ++ serValue e d ++ ',' :: nlChar :: serElems (e2 :: es) d

end

/-- `json.dumps(form_data, indent=2)` as called at src/app.py:221. -/
def json_dumps (v : Value) : String := String.mk (serValue v 0)

/-- Failures of `json.loads`: `bad` is a syntax error, raised exactly where
Python's strict decoder raises (expecting a value, invalid escapes, raw
control characters in strings, delimiter errors, trailing data); `depth` is
parser fuel exhaustion, never reached with the fuel `json_loads` supplies. -/
inductive JErr where
  | depth : JErr
  | bad : JErr

/-- The whitespace characters the JSON grammar skips. -/
def isWsChar (c : Char) : Bool :=
  c = spChar || c = nlChar || c = tabChar || c = crChar

/-- Skip leading JSON whitespace. -/
def skipWs : List Char → List Char
  | [] => []
  | c :: r => if isWsChar c then skipWs r else c :: r

/-- The body of a JSON string literal after the opening quote, exactly as
Python's strict decoder reads it: plain characters (raw control characters
below 0x20 are rejected with "Invalid control character"), two-character
escapes, and `\uXXXX` escapes.  A high surrogate followed by a low surrogate
escape combines into one astral character; a lone surrogate escape is
accepted, as Python accepts it, but the resulting character — not a Unicode
scalar, so not representable in a Lean `String` — is abstracted by
`Char.ofNat`'s fallback NUL.  No claim depends on the content of strings
containing lone surrogates, only on the parse succeeding.  The fuel only
bounds the number of decoded characters; every caller supplies more fuel
than the input length, so it cannot be exhausted. -/
def parseStringBody : Nat → List Char → List Char → Except JErr (String × List Char)
  | 0, _, _ => .error .depth
  | _ + 1, [], _ => .error .bad
  | fuel + 1, c :: rest, acc =>
    if c = qt then .ok (String.mk acc.reverse, rest)
    else if c = bsl then
      match rest with
      | [] => .error .bad
      | e :: r =>
        if e = qt then parseStringBody fuel r (qt :: acc)
        else if e = bsl then parseStringBody fuel r (bsl :: acc)
        else if e = '/' then parseStringBody fuel r ('/' :: acc)
        else if e = 'n' then parseStringBody fuel r (nlChar :: acc)
        else if e = 'r' then parseStringBody fuel r (crChar :: acc)
        else if e = 't' then parseStringBody fuel r (tabChar :: acc)
        else if e = 'b' then parseStringBody fuel r (bspChar :: acc)
        else if e = 'f' then parseStringBody fuel r (ffChar :: acc)
        else if e = 'u' then
          match r with
          | h1 :: h2 :: h3 :: h4 :: r2 =>
            match fromHex h1, fromHex h2, fromHex h3, fromHex h4 with
            | some a, some b, some c2, some d =>
              if 55296 ≤ 4096 * a + 256 * b + 16 * c2 + d ∧
                  4096 * a + 256 * b + 16 * c2 + d ≤ 56319 then
                match r2 with
                | e1 :: e2 :: rest2 =>
                  if e1 = bsl ∧ e2 = 'u' then
                    match rest2 with
                    | g1 :: g2 :: g3 :: g4 :: r3 =>
                      match fromHex g1, fromHex g2, fromHex g3, fromHex g4 with
                      | some a2, some b2, some c3, some d2 =>
                        if 56320 ≤ 4096 * a2 + 256 * b2 + 16 * c3 + d2 ∧
                            4096 * a2 + 256 * b2 + 16 * c3 + d2 ≤ 57343 then
                          parseStringBody fuel r3 (Char.ofNat
                            (65536 + 1024 * (4096 * a + 256 * b + 16 * c2 + d - 55296)
                              + (4096 * a2 + 256 * b2 + 16 * c3 + d2 - 56320)) :: acc)
                        else
                          parseStringBody fuel r2
                            (Char.ofNat (4096 * a + 256 * b + 16 * c2 + d) :: acc)
                      | _, _, _, _ => .error .bad
                    | _ => .error .bad
                  else
                    parseStringBody fuel r2
                      (Char.ofNat (4096 * a + 256 * b + 16 * c2 + d) :: acc)
                | _ =>
                  parseStringBody fuel r2
                    (Char.ofNat (4096 * a + 256 * b + 16 * c2 + d) :: acc)
              else parseStringBody fuel r2 (Char.ofNat (4096 * a + 256 * b + 16 * c2 + d) :: acc)
            | _, _, _, _ => .error .bad
          | _ => .error .bad
        else .error .bad
    else if c.toNat < 32 then .error .bad
    else parseStringBody fuel rest (c :: acc)

/-- Is the character an ASCII digit? -/
def isDigitCh (c : Char) : Bool := 48 ≤ c.toNat && c.toNat ≤ 57

/-- The longest run of ASCII digits at the head of the input. -/
def spanDigits : List Char → List Char × List Char
  | [] => ([], [])
  | c :: rest =>
    if isDigitCh c then
      match spanDigits rest with
      | (ds, r2) => (c :: ds, r2)
    else ([], c :: rest)

/-- The optional fraction and exponent parts of the JSON number grammar,
longest match, as Python's number pattern reads them: a fraction needs a dot
followed by at least one digit, an exponent needs e or E, an optional sign
and at least one digit; anything less is left unconsumed. -/
def lexFracExp (cs : List Char) : List Char × List Char :=
  let fr : List Char × List Char :=
    match cs with
    | c :: rest =>
      if c = '.' then
        match spanDigits rest with
        | ([], _) => ([], cs)
        | (ds, r2) => (c :: ds, r2)
      else ([], cs)
    | [] => ([], cs)
  match fr with
  | (frl, cs1) =>
    match cs1 with
    | c :: rest =>
      if c = 'e' ∨ c = 'E' then
        match rest with
        | s2 :: rest2 =>
          if s2 = '+' ∨ s2 = '-' then
            match spanDigits rest2 with
            | ([], _) => (frl, cs1)
            | (ds, r3) => (frl ++ c :: s2 :: ds, r3)
          else
            match spanDigits rest with
            | ([], _) => (frl, cs1)
            | (ds, r3) => (frl ++ c :: ds, r3)
        | [] => (frl, cs1)
      else (frl, cs1)
    | [] => (frl, cs1)

/-- Python json's number pattern, anchored at the current position and taken
longest-match: an optional minus, an integer part that is either 0 or a
nonzero digit followed by digits, then optional fraction and exponent.
`none` when no number starts here ("Expecting value"); any unconsumed tail is
left for the caller, which reports it exactly as Python does (e.g. "01" and
"1.e5" parse their prefix and then fail on the trailing data). -/
def lexNumber (cs : List Char) : Option (List Char × List Char) :=
  let body : List Char → List Char → Option (List Char × List Char) :=
    fun tail neg =>
      match tail with
      | c :: rest =>
        if c = '0' then
          match lexFracExp rest with
          | (fe, r2) => some (neg ++ c :: fe, r2)
        else if isDigitCh c then
          match spanDigits rest with
          | (ds, r1) =>
            match lexFracExp r1 with
            | (fe, r2) => some (neg ++ c :: ds ++ fe, r2)
        else none
      | [] => none
  match cs with
  | c :: rest => if c = '-' then body rest [c] else body cs []
  | [] => none

/-- What the decoder is currently parsing: one value; the members of an
object whose opening brace is consumed and at least one member is pending,
with the bindings read so far; or the elements of an array whose opening
bracket is consumed and at least one element is pending, with the elements
read so far. -/
inductive PMode where
  | value : PMode
  | members : List (String × Value) → PMode
  | elements : List Value → PMode

/-- The recursive heart of `json.loads`, covering the full JSON grammar the
Python decoder accepts at its defaults: objects, arrays, strings, true,
false, null, numbers, and the non-standard NaN, Infinity and -Infinity
constants.  Object members are folded into the dict with `setKey`, exactly
how the Python decoder fills a dict, so a repeated key keeps the last
binding; array elements are appended in order.  The fuel only bounds
recursion; `json_loads` supplies more than any input can consume. -/
def parseCore : Nat → PMode → List Char → Except JErr (Value × List Char)
  | 0, _, _ => .error .depth
  | fuel + 1, .value, cs =>
    match skipWs cs with
    | [] => .error .bad
    | c :: rest =>
      if c = lbrace then
        match skipWs rest with
        | [] => .error .bad
        | c2 :: rest2 =>
          if c2 = rbrace then .ok (.obj [], rest2)
          else parseCore fuel (.members []) (c2 :: rest2)
      else if c = qt then
        match parseStringBody (rest.length + 1) rest [] with
        | .ok (s, rest2) => .ok (.str s, rest2)
        | .error e => .error e
      else if c = 't' then
        match rest with
        | r1 :: r2 :: r3 :: rest2 =>
          if r1 = 'r' ∧ r2 = 'u' ∧ r3 = 'e' then .ok (.bool true, rest2) else .error .bad
        | _ => .error .bad
      else if c = 'f' then
        match rest with
        | r1 :: r2 :: r3 :: r4 :: rest2 =>
          if r1 = 'a' ∧ r2 = 'l' ∧ r3 = 's' ∧ r4 = 'e' then .ok (.bool false, rest2)
          else .error .bad
        | _ => .error .bad
      else if c = 'n' then
        match rest with
        | r1 :: r2 :: r3 :: rest2 =>
          if r1 = 'u' ∧ r2 = 'l' ∧ r3 = 'l' then .ok (.null, rest2) else .error .bad
        | _ => .error .bad
      else if c = 'N' then
        match rest with
        | r1 :: r2 :: rest2 =>
          if r1 = 'a' ∧ r2 = 'N' then .ok (.num "NaN", rest2) else .error .bad
        | _ => .error .bad
      else if c = 'I' then
        match rest with
        | r1 :: r2 :: r3 :: r4 :: r5 :: r6 :: r7 :: rest2 =>
          if r1 = 'n' ∧ r2 = 'f' ∧ r3 = 'i' ∧ r4 = 'n' ∧ r5 = 'i' ∧ r6 = 't' ∧ r7 = 'y' then
            .ok (.num "Infinity", rest2)
          else .error .bad
        | _ => .error .bad
      else if c = '[' then
        match skipWs rest with
        | [] => .error .bad
        | c2 :: rest2 =>
          if c2 = ']' then .ok (.arr [], rest2)
          else parseCore fuel (.elements []) (c2 :: rest2)
      else if c = '-' then
        match rest with
        | [] => .error .bad
        | r1 :: restI =>
          if r1 = 'I' then
            match restI with
            | r2 :: r3 :: r4 :: r5 :: r6 :: r7 :: r8 :: rest2 =>
              if r2 = 'n' ∧ r3 = 'f' ∧ r4 = 'i' ∧ r5 = 'n' ∧ r6 = 'i' ∧ r7 = 't' ∧ r8 = 'y' then
                .ok (.num "-Infinity", rest2)
              else .error .bad
            | _ => .error .bad
          else
            match lexNumber (c :: rest) with
            | some (lex, rest2) => .ok (.num (String.mk lex), rest2)
            | none => .error .bad
      else if isDigitCh c then
        match lexNumber (c :: rest) with
        | some (lex, rest2) => .ok (.num (String.mk lex), rest2)
        | none => .error .bad
      else .error .bad
  | fuel + 1, .members acc, cs =>
    match skipWs cs with
    | [] => .error .bad
    | c :: rest =>
      if c = qt then
        match parseStringBody (rest.length + 1) rest [] with
        | .error e => .error e
        | .ok (key, rest2) =>
          match skipWs rest2 with
          | [] => .error .bad
          | c2 :: rest3 =>
            if c2 = ':' then
              match parseCore fuel .value rest3 with
              | .error e => .error e
              | .ok (v, rest4) =>
                match skipWs rest4 with
                | [] => .error .bad
                | c3 :: rest5 =>
                  if c3 = ',' then parseCore fuel (.members (setKey acc key v)) rest5
                  else if c3 = rbrace then .ok (.obj (setKey acc key v), rest5)
                  else .error .bad
            else .error .bad
      else .error .bad
  | fuel + 1, .elements acc, cs =>
    match parseCore fuel .value cs with
    | .error e => .error e
    | .ok (v, rest) =>
      match skipWs rest with
      | [] => .error .bad
      | c :: rest2 =>
        if c = ',' then parseCore fuel (.elements (acc ++ [v])) rest2
        else if c = ']' then .ok (.arr (acc ++ [v]), rest2)
        else .error .bad

/-- `json.loads` as called at src/app.py:231: parse one value with ample
fuel and require that only whitespace follows it ("Extra data" otherwise). -/
def json_loads (s : String) : Except JErr Value :=
  match parseCore (s.data.length + 1) .value s.data with
  | .ok (v, rest) => if skipWs rest = [] then .ok v else .error .bad
  | .error e => .error e

/-- The JSON-import block of `run` (src/app.py:228-236): parse the uploaded
text; on success replace the document wholesale via `import_json` and report
success; on a parse error keep the previous document and surface the error
(`st.error`), modelled by the `false` flag. -/
def handle_import (s : Value) (raw : String) : Value × Bool :=
  match json_loads raw with
  | .ok d => (import_json s d, true)
  | .error _ => (s, false)

/-- Is the value a Python string? -/
def isStr : Value → Bool
  | .str _ => true
  | _ => false

/-- Is the value a Python boolean? -/
def isBool : Value → Bool
  | .bool _ => true
  | _ => false

/-- Does a value have the shape of one attack entry of the schema of spec
section 3 (fields in the order the app creates and exports them)? -/
def conformsAttack : Value → Bool
  | .obj [(k1, v1), (k2, v2), (k3, v3), (k4, v4)] =>
    (k1 == "title") && isStr v1 && ((k2 == "image") && isStr v2) &&
    ((k3 == "description") && isStr v3) && ((k4 == "mitigated") && isBool v4)
  | _ => false

/-- Does a value have the shape of the takeaway entry of the schema? -/
def conformsTakeaway : Value → Bool
  | .obj [(k1, v1), (k2, v2), (k3, v3)] =>
    (k1 == "quote") && isStr v1 && ((k2 == "author") && isStr v2) &&
    ((k3 == "picture") && isStr v3)
  | _ => false

/-- Does a value conform to the Report schema of spec section 3 (fields in
the order the app creates and exports them)? -/
def conformsReport : Value → Bool
  | .obj [(k1, v1), (k2, v2), (k3, v3), (k4, v4), (k5, v5), (k6, v6), (k7, v7), (k8, v8)] =>
    (k1 == "report_date") && isStr v1 && ((k2 == "threat_level") && isStr v2) &&
    ((k3 == "generalSituation") && isStr v3) && ((k4 == "hunting_text") && isStr v4) &&
    ((k5 == "attack1") && conformsAttack v5) && ((k6 == "attack2") && conformsAttack v6) &&
    ((k7 == "attack3") && conformsAttack v7) && ((k8 == "takeaway") && conformsTakeaway v8)
  | _ => false

mutual

/-- The value lies in the string/boolean/dict fragment the app's own
documents inhabit, and no dict anywhere in it binds the same key twice (a
real Python dict cannot repeat a key).  Every schema-conforming Report
satisfies this.  The round-trip law is stated for this fragment; values with
null, numeric or list leaves can only enter the session via an import. -/
def goodV : Value → Bool
  | .str _ => true
  | .bool _ => true
  | .obj l => goodL l
  | .null => false
  | .num _ => false
  | .arr _ => false

/-- Key distinctness and recursive well-formedness of a member list. -/
def goodL : List (String × Value) → Bool
  | [] => true
  | (k, v) :: rest => (lookupKey rest k).isNone && goodV v && goodL rest

end

theorem fromHex_hexDig : ∀ x : Nat, x < 16 → fromHex (hexDig x) = some x := by decide

theorem hexRecompose (n : Nat) (h : n < 65536) :
    4096 * (n / 4096 % 16) + 256 * (n / 256 % 16) + 16 * (n / 16 % 16) + n % 16 = n := by
  omega

theorem psb_close (fuel : Nat) (X acc : List Char) :
    parseStringBody (fuel + 1) (qt :: X) acc = .ok (String.mk acc.reverse, X) := rfl

theorem psb_esc_qt (fuel : Nat) (X acc : List Char) :
    parseStringBody (fuel + 1) (bsl :: qt :: X) acc = parseStringBody fuel X (qt :: acc) := rfl

theorem psb_esc_bsl (fuel : Nat) (X acc : List Char) :
    parseStringBody (fuel + 1) (bsl :: bsl :: X) acc = parseStringBody fuel X (bsl :: acc) := rfl

theorem psb_esc_n (fuel : Nat) (X acc : List Char) :
    parseStringBody (fuel + 1) (bsl :: 'n' :: X) acc = parseStringBody fuel X (nlChar :: acc) := rfl

theorem psb_esc_r (fuel : Nat) (X acc : List Char) :
    parseStringBody (fuel + 1) (bsl :: 'r' :: X) acc = parseStringBody fuel X (crChar :: acc) := rfl

theorem psb_esc_t (fuel : Nat) (X acc : List Char) :
    parseStringBody (fuel + 1) (bsl :: 't' :: X) acc = parseStringBody fuel X (tabChar :: acc) := rfl

theorem psb_esc_b (fuel : Nat) (X acc : List Char) :
    parseStringBody (fuel + 1) (bsl :: 'b' :: X) acc = parseStringBody fuel X (bspChar :: acc) := rfl

theorem psb_esc_f (fuel : Nat) (X acc : List Char) :
    parseStringBody (fuel + 1) (bsl :: 'f' :: X) acc = parseStringBody fuel X (ffChar :: acc) := rfl

theorem psb_lit (fuel : Nat) (c : Char) (X acc : List Char)
    (h1 : ¬ c = qt) (h2 : ¬ c = bsl) (h3 : ¬ c.toNat < 32) :
    parseStringBody (fuel + 1) (c :: X) acc = parseStringBody fuel X (c :: acc) := by
  simp only [parseStringBody]
  rw [if_neg h1, if_neg h2, if_neg h3]

theorem psb_u_scalar (fuel : Nat) (a b c2 d : Nat) (ha : a < 16) (hb : b < 16)
    (hc : c2 < 16) (hd : d < 16)
    (hval : 4096 * a + 256 * b + 16 * c2 + d < 55296 ∨
      57343 < 4096 * a + 256 * b + 16 * c2 + d) (X acc : List Char) :
    parseStringBody (fuel + 1)
      (bsl :: 'u' :: hexDig a :: hexDig b :: hexDig c2 :: hexDig d :: X) acc
      = parseStringBody fuel X (Char.ofNat (4096 * a + 256 * b + 16 * c2 + d) :: acc) := by
  have hs1 : ¬ (55296 ≤ 4096 * a + 256 * b + 16 * c2 + d ∧
      4096 * a + 256 * b + 16 * c2 + d ≤ 56319) := by omega
  simp [parseStringBody, fromHex_hexDig a ha, fromHex_hexDig b hb, fromHex_hexDig c2 hc,
    fromHex_hexDig d hd, hs1, show ¬ bsl = qt from by decide,
    show ¬ 'u' = qt from by decide, show ¬ 'u' = bsl from by decide,
    show ¬ 'u' = '/' from by decide, show ¬ 'u' = 'n' from by decide,
    show ¬ 'u' = 'r' from by decide, show ¬ 'u' = 't' from by decide,
    show ¬ 'u' = 'b' from by decide, show ¬ 'u' = 'f' from by decide]

theorem psb_u_pair (fuel : Nat) (hi lo : Nat) (hhi1 : 55296 ≤ hi) (hhi2 : hi ≤ 56319)
    (hlo1 : 56320 ≤ lo) (hlo2 : lo ≤ 57343) (X acc : List Char) :
    parseStringBody (fuel + 1)
      (bsl :: 'u' :: hexDig (hi / 4096 % 16) :: hexDig (hi / 256 % 16) :: hexDig (hi / 16 % 16)
        :: hexDig (hi % 16) :: bsl :: 'u' :: hexDig (lo / 4096 % 16) :: hexDig (lo / 256 % 16)
        :: hexDig (lo / 16 % 16) :: hexDig (lo % 16) :: X) acc
      = parseStringBody fuel X (Char.ofNat (65536 + 1024 * (hi - 55296) + (lo - 56320)) :: acc) := by
  have ehi := hexRecompose hi (by omega)
  have elo := hexRecompose lo (by omega)
  have hcondHi : 55296 ≤ 4096 * (hi / 4096 % 16) + 256 * (hi / 256 % 16) + 16 * (hi / 16 % 16)
      + hi % 16 ∧ 4096 * (hi / 4096 % 16) + 256 * (hi / 256 % 16) + 16 * (hi / 16 % 16)
      + hi % 16 ≤ 56319 := by omega
  have hcondLo : 56320 ≤ 4096 * (lo / 4096 % 16) + 256 * (lo / 256 % 16) + 16 * (lo / 16 % 16)
      + lo % 16 ∧ 4096 * (lo / 4096 % 16) + 256 * (lo / 256 % 16) + 16 * (lo / 16 % 16)
      + lo % 16 ≤ 57343 := by omega
  simp [parseStringBody, fromHex_hexDig _ (Nat.mod_lt _ (by omega)), hcondHi, hcondLo,
    show ¬ bsl = qt from by decide,
    show ¬ 'u' = qt from by decide, show ¬ 'u' = bsl from by decide,
    show ¬ 'u' = '/' from by decide, show ¬ 'u' = 'n' from by decide,
    show ¬ 'u' = 'r' from by decide, show ¬ 'u' = 't' from by decide,
    show ¬ 'u' = 'b' from by decide, show ¬ 'u' = 'f' from by decide, ehi, elo]
  rw [if_pos ⟨hhi1, hhi2⟩, if_pos ⟨hlo1, hlo2⟩]

theorem parseStringBody_escChars (l : List Char) :
    ∀ (fuel : Nat) (acc tail : List Char), l.length < fuel →
      parseStringBody fuel (escChars l ++ qt :: tail) acc
        = .ok (String.mk (acc.reverse ++ l), tail) := by
  induction l with
  | nil =>
    intro fuel acc tail hf
    obtain ⟨f2, rfl⟩ : ∃ f2, fuel = f2 + 1 := ⟨fuel - 1, by omega⟩
    simp [escChars, psb_close]
  | cons c l ih =>
    intro fuel acc tail hf
    obtain ⟨f2, rfl⟩ : ∃ f2, fuel = f2 + 1 := ⟨fuel - 1, by omega⟩
    have hf2 : l.length < f2 := by simp at hf; omega
    rw [show escChars (c :: l) ++ qt :: tail = escChar c ++ (escChars l ++ qt :: tail) from by
      simp [escChars]]
    by_cases h1 : c = qt
    · subst h1
      rw [show escChar qt = [bsl, qt] from rfl]
      simp only [List.cons_append, List.nil_append]
      rw [psb_esc_qt, ih f2 _ tail hf2]
      simp
    · by_cases h2 : c = bsl
      · subst h2
        rw [show escChar bsl = [bsl, bsl] from rfl]
        simp only [List.cons_append, List.nil_append]
        rw [psb_esc_bsl, ih f2 _ tail hf2]
        simp
      · by_cases h3 : c = nlChar
        · subst h3
          rw [show escChar nlChar = [bsl, 'n'] from rfl]
          simp only [List.cons_append, List.nil_append]
          rw [psb_esc_n, ih f2 _ tail hf2]
          simp
        · by_cases h4 : c = crChar
          · subst h4
            rw [show escChar crChar = [bsl, 'r'] from rfl]
            simp only [List.cons_append, List.nil_append]
            rw [psb_esc_r, ih f2 _ tail hf2]
            simp
          · by_cases h5 : c = tabChar
            · subst h5
              rw [show escChar tabChar = [bsl, 't'] from rfl]
              simp only [List.cons_append, List.nil_append]
              rw [psb_esc_t, ih f2 _ tail hf2]
              simp
            · by_cases h6 : c = bspChar
              · subst h6
                rw [show escChar bspChar = [bsl, 'b'] from rfl]
                simp only [List.cons_append, List.nil_append]
                rw [psb_esc_b, ih f2 _ tail hf2]
                simp
              · by_cases h7 : c = ffChar
                · subst h7
                  rw [show escChar ffChar = [bsl, 'f'] from rfl]
                  simp only [List.cons_append, List.nil_append]
                  rw [psb_esc_f, ih f2 _ tail hf2]
                  simp
                · by_cases h8 : 32 ≤ c.toNat ∧ c.toNat ≤ 126
                  · have hesc : escChar c = [c] := by
                      simp [escChar, h1, h2, h3, h4, h5, h6, h7, h8]
                    rw [hesc]
                    simp only [List.cons_append, List.nil_append]
                    rw [psb_lit f2 c _ acc h1 h2 (by omega), ih f2 _ tail hf2]
                    simp
                  · have hvalid : c.toNat < 55296 ∨ (57343 < c.toNat ∧ c.toNat < 1114112) :=
                      c.valid
                    by_cases h9 : c.toNat < 65536
                    · have hesc : escChar c = bsl :: 'u' :: hex4 c.toNat := by
                        simp [escChar, h1, h2, h3, h4, h5, h6, h7, h8, h9]
                      rw [hesc]
                      simp only [hex4, List.cons_append, List.nil_append]
                      rw [psb_u_scalar f2 _ _ _ _ (Nat.mod_lt _ (by omega))
                        (Nat.mod_lt _ (by omega)) (Nat.mod_lt _ (by omega))
                        (Nat.mod_lt _ (by omega))
                        (by rw [hexRecompose c.toNat h9]; omega)]
                      rw [hexRecompose c.toNat h9, Char.ofNat_toNat, ih f2 _ tail hf2]
                      simp
                    · have hcv : 65536 ≤ c.toNat ∧ c.toNat < 1114112 := by omega
                      have hesc : escChar c = bsl :: 'u' ::
                          hex4 (55296 + (c.toNat - 65536) / 1024)
                          ++ bsl :: 'u' :: hex4 (56320 + (c.toNat - 65536) % 1024) := by
                        simp [escChar, h1, h2, h3, h4, h5, h6, h7, h8, h9]
                      rw [hesc]
                      simp only [hex4, List.cons_append, List.nil_append, List.append_assoc]
                      rw [psb_u_pair f2 _ _ (by omega) (by omega) (by omega) (by omega)]
                      rw [show 65536 + 1024 * ((55296 + (c.toNat - 65536) / 1024) - 55296)
                          + ((56320 + (c.toNat - 65536) % 1024) - 56320) = c.toNat from by omega]
                      rw [Char.ofNat_toNat, ih f2 _ tail hf2]
                      simp

theorem stringMk_data (s : String) : String.mk s.data = s := rfl

theorem skipWs_sp (x : List Char) : skipWs (spChar :: x) = skipWs x := rfl

theorem skipWs_nl (x : List Char) : skipWs (nlChar :: x) = skipWs x := rfl

theorem skipWs_qt (x : List Char) : skipWs (qt :: x) = qt :: x := rfl

theorem skipWs_lbrace (x : List Char) : skipWs (lbrace :: x) = lbrace :: x := rfl

theorem skipWs_rbrace (x : List Char) : skipWs (rbrace :: x) = rbrace :: x := rfl

theorem skipWs_colon (x : List Char) : skipWs (':' :: x) = ':' :: x := rfl

theorem skipWs_comma (x : List Char) : skipWs (',' :: x) = ',' :: x := rfl

theorem skipWs_spaces (n : Nat) (x : List Char) : skipWs (spaces n ++ x) = skipWs x := by
  induction n with
  | zero => simp [spaces]
  | succ n ih =>
    rw [show spaces (n + 1) ++ x = spChar :: (spaces n ++ x) from by
      simp [spaces, List.replicate_succ]]
    rw [skipWs_sp, ih]

theorem skipWs_skipWs (x : List Char) : skipWs (skipWs x) = skipWs x := by
  induction x with
  | nil => rfl
  | cons c r ih =>
    by_cases hw : isWsChar c
    · simp [skipWs, hw, ih]
    · simp [skipWs, hw]

theorem parseCore_congr : ∀ (f : Nat) (md : PMode) (x y : List Char),
    skipWs x = skipWs y → parseCore f md x = parseCore f md y := by
  intro f
  induction f with
  | zero => intro md x y _; rfl
  | succ f ih =>
    intro md x y h
    cases md with
    | value => simp only [parseCore]; rw [h]
    | members acc => simp only [parseCore]; rw [h]
    | elements acc =>
      simp only [parseCore]
      rw [ih .value x y h]

theorem escChar_length_pos (c : Char) : 1 ≤ (escChar c).length := by
  unfold escChar
  split_ifs <;> simp [hex4]

theorem escChars_length_ge (l : List Char) : l.length ≤ (escChars l).length := by
  induction l with
  | nil => simp [escChars]
  | cons c l ih =>
    have := escChar_length_pos c
    simp only [escChars, List.length_append, List.length_cons]
    omega

theorem spaces_length (n : Nat) : (spaces n).length = n := by simp [spaces]

theorem serValue_length_pos (v : Value) (d : Nat) (hg : goodV v = true) :
    1 ≤ (serValue v d).length := by
  cases v with
  | str s => simp [serValue, encStr]
  | bool b => cases b <;> simp [serValue]
  | obj l => cases l with
    | nil => simp [serValue]
    | cons m ms => simp [serValue]
  | null => simp [goodV] at hg
  | num n0 => simp [goodV] at hg
  | arr a0 => simp [goodV] at hg

/-- The separator-and-rest a member is followed by: nothing for the last
member, a comma and the remaining member lines otherwise. -/
def serTail : List (String × Value) → Nat → List Char
  | [], _ => []
  | m2 :: ms3, d => ',' :: nlChar :: serMembers (m2 :: ms3) d

theorem serMembers_cons (k : String) (v : Value) (ms : List (String × Value)) (d : Nat) :
    serMembers ((k, v) :: ms) d
      = spaces (2 * d) ++ (encStr k ++ ':' :: spChar :: (serValue v d ++ serTail ms d)) := by
  cases ms <;> simp [serMembers, serTail, List.append_assoc]

theorem skipWs_members_head (k : String) (v : Value) (ms : List (String × Value)) (d : Nat)
    (Z : List Char) :
    skipWs (serMembers ((k, v) :: ms) d ++ Z)
      = qt :: (escChars k.data
          ++ qt :: (':' :: spChar :: (serValue v d ++ (serTail ms d ++ Z)))) := by
  rw [serMembers_cons, List.append_assoc, skipWs_spaces]
  rw [show (encStr k ++ ':' :: spChar :: (serValue v d ++ serTail ms d)) ++ Z
      = qt :: (escChars k.data
          ++ qt :: (':' :: spChar :: (serValue v d ++ (serTail ms d ++ Z)))) from by
    simp [encStr, List.append_assoc]]
  exact skipWs_qt _

/-- Fold a parsed member list into an accumulator dict, one `setKey` per
member, the way the decoder builds an object. -/
def foldSet (acc ms : List (String × Value)) : List (String × Value) :=
  List.foldl (fun a kv => setKey a kv.1 kv.2) acc ms

theorem foldSet_cons (acc : List (String × Value)) (k : String) (v : Value)
    (rest : List (String × Value)) :
    foldSet acc ((k, v) :: rest) = foldSet (setKey acc k v) rest := rfl

theorem foldSet_of_fresh : ∀ (ms acc : List (String × Value)), goodL ms = true →
    (∀ kk, (lookupKey ms kk).isSome = true → lookupKey acc kk = none) →
    foldSet acc ms = acc ++ ms := by
  intro ms
  induction ms with
  | nil => intro acc _ _; simp [foldSet]
  | cons m rest ih =>
    intro acc hg hfresh
    obtain ⟨k, v⟩ := m
    simp only [goodL, Bool.and_eq_true, Option.isNone_iff_eq_none] at hg
    obtain ⟨⟨hk, hv⟩, hrest⟩ := hg
    have hsk : setKey acc k v = acc ++ [(k, v)] :=
      setKey_of_lookup_none acc k v (hfresh k (by simp [lookupKey]))
    rw [foldSet_cons, hsk, ih (acc ++ [(k, v)]) hrest ?fresh2]
    · simp
    case fresh2 =>
      intro kk hkk
      have hkne : ¬ k = kk := by
        intro he
        rw [← he, hk] at hkk
        simp at hkk
      have hacc : lookupKey acc kk = none := hfresh kk (by simp [lookupKey, hkne, hkk])
      rw [lookupKey_append, hacc]
      simp [lookupKey, hkne]

theorem foldSet_self (ms : List (String × Value)) (h : goodL ms = true) :
    foldSet [] ms = ms := by
  simpa using foldSet_of_fresh ms [] h (fun kk _ => rfl)

theorem encStr_length (s : String) : (encStr s).length = (escChars s.data).length + 2 := by
  simp [encStr]

theorem parse_serValue : ∀ fuel : Nat,
    (∀ (v : Value) (d : Nat) (tail : List Char), goodV v = true →
      (serValue v d ++ tail).length ≤ fuel →
      parseCore fuel .value (serValue v d ++ tail) = .ok (v, tail)) ∧
    (∀ (ms acc : List (String × Value)) (d j : Nat) (tail : List Char),
      ms ≠ [] → goodL ms = true →
      (serMembers ms d ++ nlChar :: (spaces j ++ rbrace :: tail)).length ≤ fuel →
      parseCore fuel (.members acc) (serMembers ms d ++ nlChar :: (spaces j ++ rbrace :: tail))
        = .ok (.obj (foldSet acc ms), tail)) := by
  intro fuel
  induction fuel with
  | zero =>
    constructor
    · intro v d tail hg hlen
      have := serValue_length_pos v d hg
      simp only [List.length_append] at hlen
      omega
    · intro ms acc d j tail hne _ hlen
      simp only [List.length_append, List.length_cons] at hlen
      omega
  | succ fuel ih =>
    obtain ⟨ihV, ihM⟩ := ih
    constructor
    · intro v d tail hg hlen
      cases v with
      | null => simp [goodV] at hg
      | num n0 => simp [goodV] at hg
      | arr a0 => simp [goodV] at hg
      | str s =>
        rw [show serValue (.str s) d ++ tail = qt :: (escChars s.data ++ qt :: tail) from by
          simp [serValue, encStr]]
        have hps := parseStringBody_escChars s.data
          ((escChars s.data ++ qt :: tail).length + 1) [] tail
          (by
            have := escChars_length_ge s.data
            simp only [List.length_append, List.length_cons]
            omega)
        simp only [List.reverse_nil, List.nil_append, stringMk_data] at hps
        simp at hps
        simp [parseCore, skipWs_qt, show ¬ qt = lbrace from by decide, hps]
      | bool b =>
        cases b with
        | true =>
          rw [show serValue (.bool true) d ++ tail = 't' :: 'r' :: 'u' :: 'e' :: tail from by
            simp [serValue]]
          rfl
        | false =>
          rw [show serValue (.bool false) d ++ tail
              = 'f' :: 'a' :: 'l' :: 's' :: 'e' :: tail from by simp [serValue]]
          rfl
      | obj l =>
        cases l with
        | nil =>
          rw [show serValue (.obj []) d ++ tail = lbrace :: rbrace :: tail from by
            simp [serValue]]
          rfl
        | cons m ms =>
          obtain ⟨k, v⟩ := m
          have hshape : serValue (.obj ((k, v) :: ms)) d ++ tail
              = lbrace :: nlChar :: (serMembers ((k, v) :: ms) (d + 1)
                ++ nlChar :: (spaces (2 * d) ++ rbrace :: tail)) := by
            simp [serValue, List.append_assoc]
          rw [hshape] at hlen ⊢
          have hg2 : goodL ((k, v) :: ms) = true := by simpa [goodV] using hg
          have hlen2 : (serMembers ((k, v) :: ms) (d + 1)
              ++ nlChar :: (spaces (2 * d) ++ rbrace :: tail)).length ≤ fuel := by
            simp only [List.length_append, List.length_cons] at hlen ⊢
            omega
          have hM := ihM ((k, v) :: ms) [] (d + 1) (2 * d) tail (by simp) hg2 hlen2
          obtain ⟨R, hR⟩ : ∃ R, skipWs (nlChar :: (serMembers ((k, v) :: ms) (d + 1)
              ++ nlChar :: (spaces (2 * d) ++ rbrace :: tail))) = qt :: R :=
            ⟨_, by rw [skipWs_nl, skipWs_members_head]⟩
          have hq : parseCore fuel (.members []) (qt :: R)
              = .ok (.obj (foldSet [] ((k, v) :: ms)), tail) := by
            rw [← hR]
            calc parseCore fuel (.members []) (skipWs (nlChar :: (serMembers ((k, v) :: ms) (d + 1)
                  ++ nlChar :: (spaces (2 * d) ++ rbrace :: tail))))
                = parseCore fuel (.members []) (nlChar :: (serMembers ((k, v) :: ms) (d + 1)
                  ++ nlChar :: (spaces (2 * d) ++ rbrace :: tail))) :=
                  parseCore_congr _ _ _ _ (skipWs_skipWs _)
              _ = parseCore fuel (.members []) (serMembers ((k, v) :: ms) (d + 1)
                  ++ nlChar :: (spaces (2 * d) ++ rbrace :: tail)) :=
                  parseCore_congr _ _ _ _ (skipWs_nl _)
              _ = _ := hM
          rw [foldSet_self _ hg2] at hq
          simp [parseCore, skipWs_lbrace, hR, show ¬ qt = rbrace from by decide, hq]
    · intro ms acc d j tail hne hg hlen
      cases ms with
      | nil => exact absurd rfl hne
      | cons m ms2 =>
        obtain ⟨k, v⟩ := m
        simp only [goodL, Bool.and_eq_true, Option.isNone_iff_eq_none] at hg
        obtain ⟨⟨hk, hgv⟩, hgl2⟩ := hg
        have hlenM := hlen
        rw [serMembers_cons] at hlenM
        simp only [List.length_append, List.length_cons, spaces_length, encStr_length] at hlenM
        have hval : parseCore fuel .value (spChar :: (serValue v d
            ++ (serTail ms2 d ++ nlChar :: (spaces j ++ rbrace :: tail))))
            = .ok (v, serTail ms2 d ++ nlChar :: (spaces j ++ rbrace :: tail)) := by
          rw [parseCore_congr _ _ _ _ (skipWs_sp _)]
          apply ihV v d _ hgv
          simp only [List.length_append, List.length_cons, spaces_length]
          omega
        cases ms2 with
        | nil =>
          have hR := skipWs_members_head k v [] d (nlChar :: (spaces j ++ rbrace :: tail))
          have hps := parseStringBody_escChars k.data
            ((escChars k.data ++ qt :: (':' :: spChar :: (serValue v d
              ++ (serTail ([] : List (String × Value)) d
                ++ nlChar :: (spaces j ++ rbrace :: tail))))).length + 1) []
            (':' :: spChar :: (serValue v d ++ (serTail ([] : List (String × Value)) d
              ++ nlChar :: (spaces j ++ rbrace :: tail))))
            (by
              have := escChars_length_ge k.data
              simp only [List.length_append, List.length_cons]
              omega)
          simp only [List.reverse_nil, List.nil_append, stringMk_data] at hps
          have hend : skipWs ((nlChar : Char) :: (spaces j ++ rbrace :: tail))
              = rbrace :: tail := by
            rw [skipWs_nl, skipWs_spaces, skipWs_rbrace]
          simp only [serTail, List.nil_append] at hR hps hval
          simp at hps
          simp [parseCore, hR, hps, skipWs_colon, hval, hend,
            show ¬ rbrace = ',' from by decide, foldSet]
        | cons m2 ms3 =>
          have hR := skipWs_members_head k v (m2 :: ms3) d
            (nlChar :: (spaces j ++ rbrace :: tail))
          have hps := parseStringBody_escChars k.data
            ((escChars k.data ++ qt :: (':' :: spChar :: (serValue v d
              ++ (serTail (m2 :: ms3) d ++ nlChar :: (spaces j ++ rbrace :: tail))))).length + 1)
            []
            (':' :: spChar :: (serValue v d ++ (serTail (m2 :: ms3) d
              ++ nlChar :: (spaces j ++ rbrace :: tail))))
            (by
              have := escChars_length_ge k.data
              simp only [List.length_append, List.length_cons]
              omega)
          simp only [List.reverse_nil, List.nil_append, stringMk_data] at hps
          have hM2 : parseCore fuel (.members (setKey acc k v))
              (nlChar :: (serMembers (m2 :: ms3) d ++ nlChar :: (spaces j ++ rbrace :: tail)))
              = .ok (.obj (foldSet (setKey acc k v) (m2 :: ms3)), tail) := by
            rw [parseCore_congr _ _ _ _ (skipWs_nl _)]
            apply ihM (m2 :: ms3) (setKey acc k v) d j tail (by simp) hgl2
            have := serValue_length_pos v d hgv
            simp only [serTail, List.length_append, List.length_cons, spaces_length] at hlenM ⊢
            omega
          have hendshape : serTail (m2 :: ms3) d ++ nlChar :: (spaces j ++ rbrace :: tail)
              = ',' :: nlChar :: (serMembers (m2 :: ms3) d
                ++ nlChar :: (spaces j ++ rbrace :: tail)) := by
            simp [serTail]
          rw [hendshape] at hR hps hval
          simp at hps
          simp [parseCore, hR, hps, skipWs_colon, hval, skipWs_comma, hM2, foldSet_cons]

theorem json_roundtrip_goodV (v : Value) (h : goodV v = true) :
    json_loads (json_dumps v) = .ok v := by
  unfold json_loads json_dumps
  rw [show (String.mk (serValue v 0)).data = serValue v 0 from rfl]
  have hm := (parse_serValue ((serValue v 0).length + 1)).1 v 0 [] h (by simp)
  rw [List.append_nil] at hm
  rw [hm]
  rfl

theorem isStr_shape (v : Value) (h : isStr v = true) : ∃ s, v = Value.str s := by
  cases v with
  | str s => exact ⟨s, rfl⟩
  | bool b => simp [isStr] at h
  | obj l => simp [isStr] at h
  | null => simp [isStr] at h
  | num n0 => simp [isStr] at h
  | arr a0 => simp [isStr] at h

theorem isBool_shape (v : Value) (h : isBool v = true) : ∃ b, v = Value.bool b := by
  cases v with
  | str s => simp [isBool] at h
  | bool b => exact ⟨b, rfl⟩
  | obj l => simp [isBool] at h
  | null => simp [isBool] at h
  | num n0 => simp [isBool] at h
  | arr a0 => simp [isBool] at h

theorem conformsAttack_shape (a : Value) (h : conformsAttack a = true) :
    ∃ t i de m, a = .obj [("title", .str t), ("image", .str i),
      ("description", .str de), ("mitigated", .bool m)] := by
  cases a with
  | str s => simp [conformsAttack] at h
  | bool b => simp [conformsAttack] at h
  | null => simp [conformsAttack] at h
  | num n0 => simp [conformsAttack] at h
  | arr a0 => simp [conformsAttack] at h
  | obj l =>
    rcases l with _ | ⟨⟨k1, v1⟩, _ | ⟨⟨k2, v2⟩, _ | ⟨⟨k3, v3⟩, _ | ⟨⟨k4, v4⟩, _ | ⟨p5, l5⟩⟩⟩⟩⟩
    · simp [conformsAttack] at h
    · simp [conformsAttack] at h
    · simp [conformsAttack] at h
    · simp [conformsAttack] at h
    · simp only [conformsAttack, Bool.and_eq_true, beq_iff_eq] at h
      obtain ⟨⟨⟨⟨hk1, hv1⟩, hk2, hv2⟩, hk3, hv3⟩, hk4, hv4⟩ := h
      subst hk1; subst hk2; subst hk3; subst hk4
      obtain ⟨t, rfl⟩ := isStr_shape v1 hv1
      obtain ⟨i, rfl⟩ := isStr_shape v2 hv2
      obtain ⟨de, rfl⟩ := isStr_shape v3 hv3
      obtain ⟨m, rfl⟩ := isBool_shape v4 hv4
      exact ⟨t, i, de, m, rfl⟩
    · simp [conformsAttack] at h

theorem conformsTakeaway_shape (a : Value) (h : conformsTakeaway a = true) :
    ∃ q au pi, a = .obj [("quote", .str q), ("author", .str au), ("picture", .str pi)] := by
  cases a with
  | str s => simp [conformsTakeaway] at h
  | bool b => simp [conformsTakeaway] at h
  | null => simp [conformsTakeaway] at h
  | num n0 => simp [conformsTakeaway] at h
  | arr a0 => simp [conformsTakeaway] at h
  | obj l =>
    rcases l with _ | ⟨⟨k1, v1⟩, _ | ⟨⟨k2, v2⟩, _ | ⟨⟨k3, v3⟩, _ | ⟨p4, l4⟩⟩⟩⟩
    · simp [conformsTakeaway] at h
    · simp [conformsTakeaway] at h
    · simp [conformsTakeaway] at h
    · simp only [conformsTakeaway, Bool.and_eq_true, beq_iff_eq] at h
      obtain ⟨⟨⟨hk1, hv1⟩, hk2, hv2⟩, hk3, hv3⟩ := h
      subst hk1; subst hk2; subst hk3
      obtain ⟨q, rfl⟩ := isStr_shape v1 hv1
      obtain ⟨au, rfl⟩ := isStr_shape v2 hv2
      obtain ⟨pi, rfl⟩ := isStr_shape v3 hv3
      exact ⟨q, au, pi, rfl⟩
    · simp [conformsTakeaway] at h

theorem conformsReport_shape (v : Value) (h : conformsReport v = true) :
    ∃ rd tl gs ht a1 a2 a3 q au pi,
      v = .obj [("report_date", .str rd), ("threat_level", .str tl),
        ("generalSituation", .str gs), ("hunting_text", .str ht),
        ("attack1", a1), ("attack2", a2), ("attack3", a3),
        ("takeaway", .obj [("quote", .str q), ("author", .str au), ("picture", .str pi)])] ∧
      conformsAttack a1 = true ∧ conformsAttack a2 = true ∧ conformsAttack a3 = true := by
  cases v with
  | str s => simp [conformsReport] at h
  | bool b => simp [conformsReport] at h
  | null => simp [conformsReport] at h
  | num n0 => simp [conformsReport] at h
  | arr a0 => simp [conformsReport] at h
  | obj l =>
    rcases l with _ | ⟨⟨k1, v1⟩, _ | ⟨⟨k2, v2⟩, _ | ⟨⟨k3, v3⟩, _ | ⟨⟨k4, v4⟩,
      _ | ⟨⟨k5, v5⟩, _ | ⟨⟨k6, v6⟩, _ | ⟨⟨k7, v7⟩, _ | ⟨⟨k8, v8⟩, _ | ⟨p9, l9⟩⟩⟩⟩⟩⟩⟩⟩⟩
    · simp [conformsReport] at h
    · simp [conformsReport] at h
    · simp [conformsReport] at h
    · simp [conformsReport] at h
    · simp [conformsReport] at h
    · simp [conformsReport] at h
    · simp [conformsReport] at h
    · simp [conformsReport] at h
    · simp only [conformsReport, Bool.and_eq_true, beq_iff_eq] at h
      obtain ⟨⟨⟨⟨⟨⟨⟨⟨hk1, hv1⟩, hk2, hv2⟩, hk3, hv3⟩, hk4, hv4⟩, hk5, hv5⟩,
        hk6, hv6⟩, hk7, hv7⟩, hk8, hv8⟩ := h
      subst hk1; subst hk2; subst hk3; subst hk4; subst hk5; subst hk6; subst hk7; subst hk8
      obtain ⟨rd, rfl⟩ := isStr_shape v1 hv1
      obtain ⟨tl, rfl⟩ := isStr_shape v2 hv2
      obtain ⟨gs, rfl⟩ := isStr_shape v3 hv3
      obtain ⟨ht, rfl⟩ := isStr_shape v4 hv4
      obtain ⟨q, au, pi, rfl⟩ := conformsTakeaway_shape v8 hv8
      exact ⟨rd, tl, gs, ht, v5, v6, v7, q, au, pi, rfl, hv5, hv6, hv7⟩
    · simp [conformsReport] at h

theorem goodV_of_conformsReport (v : Value) (h : conformsReport v = true) :
    goodV v = true := by
  obtain ⟨rd, tl, gs, ht, a1, a2, a3, q, au, pi, rfl, h1, h2, h3⟩ := conformsReport_shape v h
  obtain ⟨t1, i1, d1, m1, rfl⟩ := conformsAttack_shape a1 h1
  obtain ⟨t2, i2, d2, m2, rfl⟩ := conformsAttack_shape a2 h2
  obtain ⟨t3, i3, d3, m3, rfl⟩ := conformsAttack_shape a3 h3
  rfl

/-- C3: exporting a schema-conforming Report with `json.dumps(form_data,
indent=2)` and importing the parsed result yields a Report deep-equal to the
original: `json_loads` inverts `json_dumps`, and the import block replaces
the session document with exactly the parsed value. -/
theorem c3_export_import_roundtrip (v : Value) (h : conformsReport v = true) :
    json_loads (json_dumps v) = .ok v ∧
    ∀ s0, handle_import s0 (json_dumps v) = (v, true) := by
  have hrt := json_roundtrip_goodV v (goodV_of_conformsReport v h)
  exact ⟨hrt, fun s0 => by simp [handle_import, hrt, import_json]⟩

theorem c3_export_import_roundtrip_witness :
    conformsReport get_default_form_data = true ∧
    json_loads (json_dumps get_default_form_data) = .ok get_default_form_data ∧
    handle_import get_default_form_data (json_dumps get_default_form_data)
      = (get_default_form_data, true) := by
  have h := c3_export_import_roundtrip get_default_form_data rfl
  exact ⟨rfl, h.1, h.2 get_default_form_data⟩

/-- Sanity: the decoder accepts the full JSON value grammar at Python's
defaults — null, numbers taken longest-match, arrays, and the non-standard
NaN — not only the objects the app itself exports. -/
theorem json_loads_accepts_values :
    json_loads "null" = .ok .null ∧
    json_loads "-2.5e3" = .ok (.num "-2.5e3") ∧
    json_loads "[1, NaN, Infinity]"
      = .ok (.arr [.num "1", .num "NaN", .num "Infinity"]) ∧
    json_loads "01" = .error .bad :=
  ⟨rfl, rfl, rfl, rfl⟩

/-- Sanity: the strict decoder rejects a raw control character inside a
string literal, while a lone escaped surrogate is accepted (Python combines
surrogate pairs but passes a lone one through). -/
theorem json_loads_string_edge_cases :
    json_loads (String.mk [qt, nlChar, qt]) = .error .bad ∧
    (json_loads (String.mk [qt, bsl, 'u', 'd', '8', '0', '0', qt])).isOk = true :=
  ⟨rfl, rfl⟩

/-- C6: when the uploaded JSON text does not parse, the import block catches
the exception before `import_json` is ever called: the prior Report state is
returned unchanged and the failure is surfaced to the user (the `false`
flag, `st.error` in the app) instead of crashing the session. -/
theorem c6_malformed_import (s : Value) (raw : String) (e : JErr)
    (h : json_loads raw = .error e) : handle_import s raw = (s, false) := by
  simp [handle_import, h]

theorem c6_malformed_import_witness :
    json_loads "tru" = .error .bad ∧
    handle_import get_default_form_data "tru" = (get_default_form_data, false) :=
  ⟨rfl, c6_malformed_import get_default_form_data "tru" .bad rfl⟩

/-- C9: `import_json` performs no shape validation.  The empty JSON object
parses successfully; importing it succeeds and replaces the Report wholesale
with a document that does not conform to the schema, after which reading the
valid schema path "report_date" fails with KeyNotFound. -/
theorem c9_import_no_validation :
    json_loads (String.mk [lbrace, rbrace]) = .ok (Value.obj []) ∧
    conformsReport (Value.obj []) = false ∧
    handle_import get_default_form_data (String.mk [lbrace, rbrace]) = (Value.obj [], true) ∧
    get_field_value (Value.obj []) "report_date" = .error (.keyError "report_date") :=
  ⟨rfl, rfl, rfl, rfl⟩

/-- One chunk of the fixed HTML template: literal text, or a named jinja2
placeholder addressing a Report field by a dotted name chain. -/
inductive Chunk where
  | lit : String → Chunk
  | hole : List String → Chunk

/-- What a jinja2 expression evaluates to under the default environment: a
defined value, or the default `Undefined` object. -/
inductive JinjaOut where
  | defined : Value → JinjaOut
  | undefined : JinjaOut

/-- jinja2's `UndefinedError`: the default `Undefined` raises it whenever it
is operated on beyond printing or truth testing — in particular, attribute
or item access on `Undefined` calls `_fail_with_undefined_error`. -/
inductive JinjaErr where
  | undefinedError : JinjaErr

/-- One attribute/item access step of jinja2's `environment.getattr` on a
DEFINED value: `getattr(obj, name)` falling back to `obj[name]`, yielding
the default `Undefined` when both fail.  On a dict, item access finds the
key; on any other value (or a dict miss) the names the fixed template uses
match no Python attribute, so the access yields `Undefined` — without
raising, because the subject itself is defined. -/
def jinjaAccess (v : Value) (n : String) : JinjaOut :=
  match v with
  | .obj kvs =>
    match lookupKey kvs n with
    | some w => .defined w
    | none => .undefined
  | _ => .undefined

/-- Resolve the head name of a placeholder in the render context: present
keys are defined; an absent name resolves to the default `Undefined`, and no
exception is raised at this point. -/
def jinjaResolve (kvs : List (String × Value)) (n : String) : JinjaOut :=
  match lookupKey kvs n with
  | some v => .defined v
  | none => .undefined

/-- Evaluate the remaining dotted accesses of a placeholder as jinja2 does:
each access whose subject is the default `Undefined` raises
`UndefinedError` (`Undefined.__getattr__` is `_fail_with_undefined_error`);
an access on a defined subject steps through `environment.getattr`. -/
def jinjaChain : JinjaOut → List String → Except JinjaErr JinjaOut
  | out, [] => .ok out
  | .undefined, _ :: _ => .error .undefinedError
  | .defined v, n :: rest => jinjaChain (jinjaAccess v n) rest

/-- Python `str()` of a substituted value as jinja2 prints it: strings
verbatim, booleans as "True"/"False", None as "None", numbers by their
lexeme.  A dict or list leaf prints as its repr, which this model
abbreviates — the fixed template addresses only leaf fields, so no claim
depends on that text. -/
def pyStr : Value → String
  | .str s => s
  | .bool b => if b then "True" else "False"
  | .null => "None"
  | .num s => s
  | .obj _ => "dict"
  | .arr _ => "list"

/-- Substitute one chunk: evaluate the placeholder's name chain; a defined
result prints via `str()`, the default `Undefined` prints as empty text, and
an `UndefinedError` raised during evaluation propagates. -/
def renderChunk (kvs : List (String × Value)) : Chunk → Except JinjaErr String
  | .lit s => .ok s
  | .hole [] => .ok ""
  | .hole (n :: rest) =>
    match jinjaChain (jinjaResolve kvs n) rest with
    | .ok (.defined v) => .ok (pyStr v)
    | .ok .undefined => .ok ""
    | .error e => .error e

/-- Render the chunks in order and concatenate; the first raise aborts the
whole rendering, as an exception unwinds out of `template.render`. -/
def renderChunks (kvs : List (String × Value)) : List Chunk → Except JinjaErr String
  | [] => .ok ""
  | c :: cs =>
    match renderChunk kvs c with
    | .error e => .error e
    | .ok s =>
      match renderChunks kvs cs with
      | .error e => .error e
      | .ok t => .ok (s ++ t)

/-- Modelled from the spec: the fixed template file `threat-report.html` is
not under src/; spec section 6 says it carries "named placeholders
corresponding one-to-one with Report fields".  We model it as literal HTML
text around one named placeholder per Report field, nested fields addressed
by dotted chains as the widget paths spell them. -/
def fixedTemplate : List Chunk :=
  [.lit "<header>", .hole ["report_date"], .hole ["threat_level"],
   .hole ["generalSituation"], .hole ["hunting_text"],
   .hole ["attack1", "title"], .hole ["attack1", "image"],
   .hole ["attack1", "description"], .hole ["attack1", "mitigated"],
   .hole ["attack2", "title"], .hole ["attack2", "image"],
   .hole ["attack2", "description"], .hole ["attack2", "mitigated"],
   .hole ["attack3", "title"], .hole ["attack3", "image"],
   .hole ["attack3", "description"], .hole ["attack3", "mitigated"],
   .hole ["takeaway", "quote"], .hole ["takeaway", "author"],
   .hole ["takeaway", "picture"], .lit "</footer>"]

/-- The recovered failure of `render_template`: the except branch shows the
error via `st.error` and returns None (src/app.py:163-165). -/
inductive RenderErr where
  | renderError : RenderErr

/-- `SOCReportAuthoringTool.render_template` (src/app.py:150-165):
`Template(self.template).render(**field_values)` inside a `try/except
Exception`.  The `**` unpacking requires `field_values` to be a mapping, so
a non-dict document raises at the call and lands in the error branch; on a
mapping, rendering raises jinja2's `UndefinedError` exactly when a
placeholder's name chain accesses into the default `Undefined`, and that
exception too is caught by the same except branch. -/
def render_template (field_values : Value) : Except RenderErr String :=
  match field_values with
  | .obj kvs =>
    match renderChunks kvs fixedTemplate with
    | .ok html => .ok html
    | .error _ => .error .renderError
  | _ => .error .renderError

/-- A single-name placeholder never raises: whether the name is present in
the context or not, its chunk renders to some text. -/
theorem renderChunk_single_ok (kvs : List (String × Value)) (n : String) :
    ∃ s, renderChunk kvs (Chunk.hole [n]) = .ok s := by
  cases hres : jinjaResolve kvs n with
  | defined v => exact ⟨pyStr v, by simp only [renderChunk, hres, jinjaChain]⟩
  | undefined => exact ⟨"", by simp only [renderChunk, hres, jinjaChain]⟩

/-- A raise in the head chunk aborts the rendering. -/
theorem renderChunks_err_head (kvs : List (String × Value)) (c : Chunk) (cs : List Chunk)
    (h : renderChunk kvs c = .error .undefinedError) :
    renderChunks kvs (c :: cs) = .error .undefinedError := by
  simp only [renderChunks, h]

/-- A raise further down propagates past a chunk that rendered. -/
theorem renderChunks_err_tail (kvs : List (String × Value)) (c : Chunk) (cs : List Chunk)
    (s : String) (h1 : renderChunk kvs c = .ok s)
    (h2 : renderChunks kvs cs = .error .undefinedError) :
    renderChunks kvs (c :: cs) = .error .undefinedError := by
  simp only [renderChunks, h1, h2]

/-- The fields of the default document with the attack1 entry removed: a
mapping whose shape lacks a placeholder the fixed template references. -/
def docMissingAttack1Fields : List (String × Value) :=
  [("report_date", .str ""), ("threat_level", .str "Guarded"),
   ("generalSituation", .str ""), ("hunting_text", .str ""),
   ("attack2", .obj defaultAttack), ("attack3", .obj defaultAttack),
   ("takeaway", .obj [("quote", .str ""), ("author", .str ""), ("picture", .str "")])]

/-- C5: for every mapping document lacking the attack1 entry, rendering the
fixed template — which references attack1.title — takes the error branch of
`render_template`.  The head name attack1 resolves to jinja2's default
`Undefined`, the subsequent `.title` access raises `UndefinedError`, and the
except branch at src/app.py:163-165 returns None. -/
theorem c5_render_missing_fails (kvs : List (String × Value))
    (hmiss : lookupKey kvs "attack1" = none) :
    render_template (.obj kvs) = .error .renderError := by
  have hfail : renderChunk kvs (Chunk.hole ["attack1", "title"]) = .error .undefinedError := by
    simp only [renderChunk, jinjaResolve, hmiss, jinjaChain]
  obtain ⟨s1, h1⟩ := renderChunk_single_ok kvs "report_date"
  obtain ⟨s2, h2⟩ := renderChunk_single_ok kvs "threat_level"
  obtain ⟨s3, h3⟩ := renderChunk_single_ok kvs "generalSituation"
  obtain ⟨s4, h4⟩ := renderChunk_single_ok kvs "hunting_text"
  have htempl : fixedTemplate
      = Chunk.lit "<header>" :: Chunk.hole ["report_date"] :: Chunk.hole ["threat_level"]
        :: Chunk.hole ["generalSituation"] :: Chunk.hole ["hunting_text"]
        :: Chunk.hole ["attack1", "title"] :: fixedTemplate.drop 6 := rfl
  have hchunks : renderChunks kvs fixedTemplate = .error .undefinedError := by
    rw [htempl]
    exact renderChunks_err_tail _ _ _ _ rfl
      (renderChunks_err_tail _ _ _ _ h1
        (renderChunks_err_tail _ _ _ _ h2
          (renderChunks_err_tail _ _ _ _ h3
            (renderChunks_err_tail _ _ _ _ h4
              (renderChunks_err_head _ _ _ hfail)))))
  simp only [render_template, hchunks]

theorem c5_render_missing_fails_witness :
    render_template (.obj docMissingAttack1Fields) = .error .renderError :=
  c5_render_missing_fails docMissingAttack1Fields rfl

end SOCReport
